import Mathlib

/-!
Verification of the batch orchestration engine of `mudslide/batch.py`.

The Python source is shallowly embedded: the mutable `dict` of options
becomes an association list observed only through `lookup` (assignment is
modelled by shadowing cons, which has the same lookup semantics as an
in-place write), `numpy.random.SeedSequence` becomes a structure carrying
entropy, spawn key and spawn counter (mirroring numpy's documented
`spawn` scheme), the generator functions become pure functions returning
the yielded list together with the advanced generator state, and the
exceptional control flow (`StillInteracting`, `KeyboardInterrupt`)
becomes an `Except` result.  External collaborators (the trajectory's
`simulate()`/`outcome()` and the trace manager) are oracles: each work
item carries the behaviour its trajectory will exhibit, and the calls the
batch controller makes into the trace manager are recorded in an event
log.
-/

set_option maxHeartbeats 1000000

namespace Mudslide

/-- Values stored in an options dictionary: numbers (Python ints/floats,
modelled exactly as rationals), strings, and seed-sequence tokens. -/
inductive OptVal where
  | num (q : ℚ)
  | str (s : String)
  | seedTok (entropy : ℕ) (spawnKey : List ℕ) (nChildren : ℕ)
deriving DecidableEq

/-- A Python `dict` with string keys, observed only through lookup.
Assignment `d[k] = v` is modelled by consing `(k, v)` in front: the new
binding shadows any old one, exactly as an in-place overwrite does for
every lookup. -/
def Dict : Type := List (String × OptVal)

instance : DecidableEq Dict := inferInstanceAs (DecidableEq (List (String × OptVal)))

/-- Lookup of a key, first (= most recent) binding wins. -/
def Dict.lookup : Dict → String → Option OptVal
  | [], _ => none
  | (k', v) :: rest, k => if k' = k then some v else Dict.lookup rest k

/-- Python `d[k] = v`. -/
def Dict.insert (d : Dict) (k : String) (v : OptVal) : Dict :=
  (k, v) :: d

/-- Python `d.update(other)`: every binding of `other` is written into
`d`, overriding existing bindings. -/
def Dict.update (d : Dict) (other : Dict) : Dict :=
  other.foldl (fun acc kv => acc.insert kv.1 kv.2) d

theorem Dict.lookup_insert_self (d : Dict) (k : String) (v : OptVal) :
    (d.insert k v).lookup k = some v := by
  simp [Dict.insert, Dict.lookup]

theorem Dict.lookup_insert_ne (d : Dict) (k k' : String) (v : OptVal) (h : k ≠ k') :
    (d.insert k v).lookup k' = d.lookup k' := by
  simp [Dict.insert, Dict.lookup, h]

/-- Embedding of `numpy.random.SeedSequence`: entropy, spawn key and the
number of children already spawned. `SeedSequence(seed)` is
`⟨seed, [], 0⟩`. -/
structure SeedSequence where
  entropy : ℕ
  spawnKey : List ℕ
  nChildrenSpawned : ℕ
deriving DecidableEq

/-- Embedding of `SeedSequence.spawn(n)`: child `i` receives the parent's
entropy and the parent's spawn key extended by `n_children_spawned + i`;
the parent's counter advances by `n`. Returns the children and the
advanced parent. -/
def SeedSequence.spawn (s : SeedSequence) (n : ℕ) : List SeedSequence × SeedSequence :=
  ((List.range n).map (fun i => ⟨s.entropy, s.spawnKey ++ [s.nChildrenSpawned + i], 0⟩),
   { s with nChildrenSpawned := s.nChildrenSpawned + n })

/-- One initial-condition tuple yielded by a generator:
`(position, momentum, initial_state, {"seed_sequence": token})`. -/
structure InitialCondition where
  position : ℚ
  momentum : ℚ
  initial_state : ℕ
  seed_sequence : SeedSequence
deriving DecidableEq

/-- Embedding of class `TrajGenConst` (its four attributes, after
`__init__` ran with some `seed`). -/
structure TrajGenConst where
  position : ℚ
  momentum : ℚ
  initial_state : ℕ
  seed_sequence : SeedSequence
deriving DecidableEq

/-- Embedding of `TrajGenConst.__init__(position, momentum, initial_state, seed)`:
`self.seed_sequence = np.random.SeedSequence(seed)`. -/
def TrajGenConst.init (position momentum : ℚ) (initial_state : ℕ) (seed : ℕ) :
    TrajGenConst :=
  ⟨position, momentum, initial_state, ⟨seed, [], 0⟩⟩

/-- Embedding of `TrajGenConst.__call__(nsamples)`: spawn `nsamples` seed
sequences, then for `i in range(nsamples)` yield
`(position, momentum, initial_state, {"seed_sequence": seedseqs[i]})`.
Returns the yielded list and the generator with its advanced seed
stream. -/
def TrajGenConst.call (g : TrajGenConst) (nsamples : ℕ) :
    List InitialCondition × TrajGenConst :=
  let (seedseqs, ss') := g.seed_sequence.spawn nsamples
  (seedseqs.map (fun sq => ⟨g.position, g.momentum, g.initial_state, sq⟩),
   { g with seed_sequence := ss' })

/-- The sequence of seed tokens carried by a list of yielded tuples. -/
def seedTokens (l : List InitialCondition) : List SeedSequence :=
  l.map (fun t => t.seed_sequence)

/-- C5: for every master seed `S` and count `n`, two independent runs of the
constant-condition generator constructed with seed `S` (even with different
physical parameters) yield the same sequence of seed tokens, and within one
run the `n` tokens are pairwise distinct. -/
theorem trajGenConst_seed_tokens_reproducible_and_distinct
    (p₁ m₁ : ℚ) (s₁ : ℕ) (p₂ m₂ : ℚ) (s₂ : ℕ) (S n : ℕ) :
    seedTokens ((TrajGenConst.init p₁ m₁ s₁ S).call n).1 =
      seedTokens ((TrajGenConst.init p₂ m₂ s₂ S).call n).1 ∧
    (seedTokens ((TrajGenConst.init p₁ m₁ s₁ S).call n).1).Nodup := by
  constructor
  · simp [seedTokens, TrajGenConst.call, TrajGenConst.init, SeedSequence.spawn]
  · simp only [seedTokens, TrajGenConst.call, TrajGenConst.init, SeedSequence.spawn,
      List.map_map]
    apply List.Nodup.map
    · intro a b hab
      simpa using congrArg SeedSequence.spawnKey hab
    · exact List.nodup_range n

/-- C6: the constant-condition generator yields exactly `n` tuples, every
tuple carries the constructed position, momentum and initial state (so the
tuples differ only in their seed token), and the only state change of the
generator is the advance of its seed stream by `n` spawned children. -/
theorem trajGenConst_call_exact_n_constant_tuples (g : TrajGenConst) (n : ℕ) :
    ((g.call n).1).length = n ∧
    (∀ t ∈ (g.call n).1,
      t.position = g.position ∧ t.momentum = g.momentum ∧
      t.initial_state = g.initial_state) ∧
    (g.call n).2 =
      { g with seed_sequence :=
          { g.seed_sequence with
              nChildrenSpawned := g.seed_sequence.nChildrenSpawned + n } } := by
  refine ⟨?_, ?_, ?_⟩
  · simp [TrajGenConst.call, SeedSequence.spawn]
  · intro t ht
    simp only [TrajGenConst.call, SeedSequence.spawn, List.mem_map] at ht
    obtain ⟨sq, _, rfl⟩ := ht
    exact ⟨rfl, rfl, rfl⟩
  · rfl

/-- Witness for C6 at a concrete generator and count. -/
theorem trajGenConst_call_exact_n_constant_tuples_witness :
    (((TrajGenConst.init 1 2 0 7).call 3).1).length = 3 ∧
    (∀ t ∈ ((TrajGenConst.init 1 2 0 7).call 3).1,
      t.position = (TrajGenConst.init 1 2 0 7).position ∧
      t.momentum = (TrajGenConst.init 1 2 0 7).momentum ∧
      t.initial_state = (TrajGenConst.init 1 2 0 7).initial_state) :=
  ⟨(trajGenConst_call_exact_n_constant_tuples (TrajGenConst.init 1 2 0 7) 3).1,
   (trajGenConst_call_exact_n_constant_tuples (TrajGenConst.init 1 2 0 7) 3).2.1⟩

/-- A deterministic model of `np.random.default_rng(seed_traj)`: an
abstract stream of standard-normal draws together with a cursor.  A call
`normal(c, d)` consumes one draw `z` and returns `c + d * z`. -/
structure RNG where
  stream : ℕ → ℚ
  pos : ℕ

/-- Consume one draw from the random stream. -/
def RNG.next (r : RNG) : ℚ × RNG :=
  (r.stream r.pos, { r with pos := r.pos + 1 })

/-- Embedding of class `TrajGenNormal` (its attributes after `__init__`):
`position_deviation = 0.5 * sigma` and `momentum_deviation = 1.0 / sigma`
(the asymmetric parameterization of the source). -/
structure TrajGenNormal where
  position : ℚ
  position_deviation : ℚ
  momentum : ℚ
  momentum_deviation : ℚ
  initial_state : ℕ
  seed_sequence : SeedSequence
  random_state : RNG

/-- Embedding of `TrajGenNormal.__init__`. -/
def TrajGenNormal.init (position momentum : ℚ) (initial_state : ℕ) (sigma : ℚ)
    (seed : ℕ) (rng : RNG) : TrajGenNormal :=
  ⟨position, (1 / 2) * sigma, momentum, 1 / sigma, initial_state, ⟨seed, [], 0⟩, rng⟩

/-- Embedding of `TrajGenNormal.kskip(ktest)`: `return ktest < 0.0`. -/
def TrajGenNormal.kskip (_ : TrajGenNormal) (ktest : ℚ) : Bool :=
  ktest < 0

/-- Loop body of `TrajGenNormal.__call__`: for each spawned seed sequence
draw `x = normal(position, position_deviation)` and
`k = normal(momentum, momentum_deviation)`; if `kskip(k)` then `continue`
(the draws and the seed token are consumed but nothing is yielded), else
yield `(x, k, initial_state, {"seed_sequence": seedseqs[i]})`. -/
def TrajGenNormal.callAux (g : TrajGenNormal) (r : RNG) :
    List SeedSequence → List InitialCondition × RNG
  | [] => ([], r)
  | sq :: rest =>
      let (zx, r₁) := r.next
      let (zk, r₂) := r₁.next
      let x := g.position + g.position_deviation * zx
      let k := g.momentum + g.momentum_deviation * zk
      let (out, r') := g.callAux r₂ rest
      if g.kskip k then (out, r') else (⟨x, k, g.initial_state, sq⟩ :: out, r')

/-- Embedding of `TrajGenNormal.__call__(nsamples)`: spawn `nsamples` seed
sequences, then run the draw/reject loop over them.  Returns the yielded
list and the generator with advanced seed stream and random state. -/
def TrajGenNormal.call (g : TrajGenNormal) (nsamples : ℕ) :
    List InitialCondition × TrajGenNormal :=
  let (seedseqs, ss') := g.seed_sequence.spawn nsamples
  let (out, r') := g.callAux g.random_state seedseqs
  (out, { g with seed_sequence := ss', random_state := r' })

theorem trajGenNormal_callAux_spec (g : TrajGenNormal) :
    ∀ (l : List SeedSequence) (r : RNG),
      ((g.callAux r l).1).length ≤ l.length ∧
      (∀ t ∈ (g.callAux r l).1, g.kskip t.momentum = false ∧ 0 ≤ t.momentum) ∧
      ((g.callAux r l).2).pos = r.pos + 2 * l.length ∧
      ((g.callAux r l).2).stream = r.stream
  | [], r => by simp [TrajGenNormal.callAux]
  | sq :: rest, r => by
      obtain ⟨ih₁, ih₂, ih₃, ih₄⟩ :=
        trajGenNormal_callAux_spec g rest
          { r with pos := r.pos + 1 + 1 }
      simp only [TrajGenNormal.callAux, RNG.next]
      by_cases hk :
          g.kskip (g.momentum + g.momentum_deviation * r.stream (r.pos + 1)) = true
      · simp only [hk, if_pos]
        refine ⟨le_trans ih₁ (by simp), ih₂, ?_, ih₄⟩
        rw [ih₃]; simp; ring
      · simp only [Bool.not_eq_true] at hk
        simp only [hk, Bool.false_eq_true, if_false]
        refine ⟨?_, ?_, ?_, ih₄⟩
        · simpa using Nat.succ_le_succ ih₁
        · intro t ht
          rcases List.mem_cons.mp ht with h | h
          · subst h
            refine ⟨hk, ?_⟩
            have := hk
            simp only [TrajGenNormal.kskip, decide_eq_false_iff_not, not_lt] at this
            exact this
          · exact ih₂ t h
        · rw [ih₃]; simp; ring

/-- C4: for every requested count `n`, the normally-distributed generator
yields at most `n` tuples, no yielded tuple's momentum satisfies the
rejection predicate `kskip` (default: momentum < 0), i.e. every yielded
momentum is nonnegative; and every iteration — rejected or not — consumes
its seed token and its two random draws (the seed stream advances by `n`
children and the random stream by `2 n` draws regardless of rejections). -/
theorem trajGenNormal_call_rejection (g : TrajGenNormal) (n : ℕ) :
    ((g.call n).1).length ≤ n ∧
    (∀ t ∈ (g.call n).1, g.kskip t.momentum = false ∧ 0 ≤ t.momentum) ∧
    ((g.call n).2).seed_sequence.nChildrenSpawned =
      g.seed_sequence.nChildrenSpawned + n ∧
    ((g.call n).2).random_state.pos = g.random_state.pos + 2 * n := by
  obtain ⟨h₁, h₂, h₃, _⟩ :=
    trajGenNormal_callAux_spec g (g.seed_sequence.spawn n).1 g.random_state
  have hlen : ((g.seed_sequence.spawn n).1).length = n := by
    simp [SeedSequence.spawn]
  refine ⟨?_, ?_, ?_, ?_⟩
  · simpa [TrajGenNormal.call, hlen] using h₁
  · simpa [TrajGenNormal.call] using h₂
  · simp [TrajGenNormal.call, SeedSequence.spawn]
  · simpa [TrajGenNormal.call, hlen] using h₃

/-- Witness for C4 at a concrete generator (stream with a negative draw so
a rejection actually occurs) and count. -/
theorem trajGenNormal_call_rejection_witness :
    (((TrajGenNormal.init 0 0 0 1 7 ⟨fun i => if i % 4 == 3 then -1 else 1, 0⟩).call 2).1).length ≤ 2 ∧
    (∀ t ∈ ((TrajGenNormal.init 0 0 0 1 7 ⟨fun i => if i % 4 == 3 then -1 else 1, 0⟩).call 2).1,
      0 ≤ t.momentum) := by
  obtain ⟨h₁, h₂, _, _⟩ :=
    trajGenNormal_call_rejection
      (TrajGenNormal.init 0 0 0 1 7 ⟨fun i => if i % 4 == 3 then -1 else 1, 0⟩) 2
  exact ⟨h₁, fun t ht => (h₂ t ht).2⟩

/-- Exceptions that the batch controller's control flow distinguishes:
`KeyboardInterrupt` (user cancellation) and `StillInteracting` (the
expected partial failure raised by `simulate()`). -/
inductive Exn where
  | interrupt
  | stillInteracting
deriving DecidableEq

/-- An outcome vector (`np.zeros([nstates, 2])` accumulated by `+=`):
a numeric array modelled pointwise, with exact rational entries. -/
def OutcomeVec : Type := ℕ → ℚ

/-- The zero array `np.zeros(...)`. -/
def vecZero : OutcomeVec := fun _ => 0

/-- Elementwise `+=`. -/
def vecAdd (a b : OutcomeVec) : OutcomeVec := fun j => a j + b j

/-- Elementwise sum of a list of outcome vectors. -/
def vecSum (vs : List OutcomeVec) : OutcomeVec :=
  fun j => (vs.map (fun v => v j)).sum

/-- Behaviour of one external trajectory when the controller calls
`simulate()` (and, on normal return, `outcome()`): normal completion with
a trace and an outcome vector, the `StillInteracting` signal, or a
`KeyboardInterrupt` arriving during the simulation. Traces are opaque and
modelled as tags. -/
inductive SimResult where
  | ok (trace : ℕ) (outcome : OutcomeVec)
  | stillInteracting
  | interrupt

/-- Whether the trajectory completes normally. -/
def SimResult.isOk : SimResult → Bool
  | .ok _ _ => true
  | _ => false

/-- Whether the trajectory raises `StillInteracting`. -/
def SimResult.isStill : SimResult → Bool
  | .stillInteracting => true
  | _ => false

/-- Whether a `KeyboardInterrupt` arrives during the trajectory. -/
def SimResult.isInterrupt : SimResult → Bool
  | .interrupt => true
  | _ => false

/-- One work item of a batch: the tuple yielded by `self.traj_gen(n)`
(`x0, p0, initial, params`) together with the behaviour the externally
constructed trajectory will exhibit when simulated. -/
structure Sample where
  x0 : ℚ
  p0 : ℚ
  initial : ℕ
  params : Dict
  result : SimResult

/-- Calls the batch controller makes into its collaborators, recorded in
order: `tracemanager.spawn_tracer()` at the construction of trajectory
`i`, the invocation of trajectory `i`'s `simulate()`,
`tracemanager.merge_tracer(...)` for result `i`, and the warning printed
to stderr for a `StillInteracting` trajectory. -/
inductive Event where
  | spawnTracer (i : ℕ)
  | simulateCall (i : ℕ)
  | mergeTracer (i : ℕ)
  | warning
deriving DecidableEq

/-- Whether an event is a `merge_tracer` call. -/
def Event.isMerge : Event → Bool
  | .mergeTracer _ => true
  | _ => false

/-- Mutable state of a `BatchedTraj` object that the claims observe:
`self.options` (the shared base configuration) plus the log of
collaborator calls made so far. -/
structure BatchState where
  options : Dict
  log : List Event

/-- A `BatchedTraj` whose collaborator log is empty, as at the start of a
batch run. -/
def initState (opts : Dict) : BatchState :=
  { options := opts, log := [] }

/-- Loop body of `BatchedTraj.run_trajectories`. For each yielded sample:
`traj_input = self.options` binds a NAME to the same dict object, so
`traj_input.update(params)` mutates `self.options` itself — hence the
state's options are replaced by the merged dict.  The trajectory is then
constructed (calling `self.tracemanager.spawn_tracer()`), `simulate()` is
invoked, and on normal return the trace is appended and the outcome added;
`StillInteracting` prints a warning and continues; `KeyboardInterrupt`
propagates (the outer `except KeyboardInterrupt: raise` re-raises it
unchanged). -/
def runTrajAux (st : BatchState) (out : OutcomeVec) (trs : List ℕ) :
    ℕ → List Sample → Except Exn (OutcomeVec × List ℕ × BatchState)
  | _, [] => .ok (out, trs, st)
  | i, s :: rest =>
      let st' : BatchState :=
        { options := st.options.update s.params
          log := st.log ++ [Event.spawnTracer i, Event.simulateCall i] }
      match s.result with
      | .ok tr oc => runTrajAux st' (vecAdd out oc) (trs ++ [tr]) (i + 1) rest
      | .stillInteracting =>
          runTrajAux { st' with log := st'.log ++ [Event.warning] } out trs (i + 1) rest
      | .interrupt => .error .interrupt

/-- Embedding of `BatchedTraj.run_trajectories(n)`: start from
`outcomes = np.zeros(...)`, `traces = []` and run the loop over the
samples the generator yields. -/
def run_trajectories (st : BatchState) (samples : List Sample) :
    Except Exn (OutcomeVec × List ℕ × BatchState) :=
  runTrajAux st vecZero [] 0 samples

/-- Embedding of the module-level `unwrapped_run_trajectories(fssh, n)`:
it calls `BatchedTraj.run_trajectories(fssh, n)` inside
`try: ... except KeyboardInterrupt: raise`, so any error is re-raised
unchanged and any normal result is returned unchanged. -/
def unwrapped_run_trajectories (st : BatchState) (samples : List Sample) :
    Except Exn (OutcomeVec × List ℕ × BatchState) :=
  match run_trajectories st samples with
  | .error e => .error e
  | .ok r => .ok r

/-- Traces of the samples that complete normally, in order. -/
def okTraces (l : List Sample) : List ℕ :=
  l.filterMap (fun s =>
    match s.result with
    | .ok tr _ => some tr
    | _ => none)

/-- Outcome vectors of the samples that complete normally, in order. -/
def okOutcomes (l : List Sample) : List OutcomeVec :=
  l.filterMap (fun s =>
    match s.result with
    | .ok _ oc => some oc
    | _ => none)

/-- Whether some sample's simulation is hit by a `KeyboardInterrupt`. -/
def hasInterrupt (l : List Sample) : Bool :=
  l.any (fun s => s.result.isInterrupt)

/-- Number of samples that raise `StillInteracting`. -/
def stillCount (l : List Sample) : ℕ :=
  l.countP (fun s => s.result.isStill)

/-- Collaborator calls one iteration of `run_trajectories` makes for
sample number `i`. -/
def sampleEvents (i : ℕ) (s : Sample) : List Event :=
  Event.spawnTracer i :: Event.simulateCall i ::
    (if s.result.isStill then [Event.warning] else [])

/-- Collaborator calls `run_trajectories` makes over a sample list,
numbering from `i`. -/
def batchLog : ℕ → List Sample → List Event
  | _, [] => []
  | i, s :: rest => sampleEvents i s ++ batchLog (i + 1) rest

/-- Final contents of the shared `self.options` dict after the batch
merged each sample's params into it in turn. -/
def updOptions (d : Dict) : List Sample → Dict
  | [] => d
  | s :: rest => updOptions (d.update s.params) rest

theorem vecAdd_zero (v : OutcomeVec) : vecAdd v (vecSum []) = v := by
  funext j
  simp [vecAdd, vecSum]

theorem vecZero_add (v : OutcomeVec) : vecAdd vecZero v = v := by
  funext j
  simp [vecAdd, vecZero]

theorem vecAdd_sum_cons (out : OutcomeVec) (oc : OutcomeVec) (vs : List OutcomeVec) :
    vecAdd (vecAdd out oc) (vecSum vs) = vecAdd out (vecSum (oc :: vs)) := by
  funext j
  simp [vecAdd, vecSum]
  ring

theorem runTrajAux_ok (samples : List Sample) (h : hasInterrupt samples = false) :
    ∀ (i : ℕ) (st : BatchState) (out : OutcomeVec) (trs : List ℕ),
      runTrajAux st out trs i samples =
        .ok (vecAdd out (vecSum (okOutcomes samples)), trs ++ okTraces samples,
             { options := updOptions st.options samples,
               log := st.log ++ batchLog i samples }) := by
  induction samples with
  | nil =>
      intro i st out trs
      simp [runTrajAux, vecAdd_zero, okTraces, okOutcomes, updOptions, batchLog]
  | cons s rest ih =>
      intro i st out trs
      have hrest : hasInterrupt rest = false := by
        simp only [hasInterrupt, List.any_cons, Bool.or_eq_false_iff] at h
        exact h.2
      have hs : s.result.isInterrupt = false := by
        simp only [hasInterrupt, List.any_cons, Bool.or_eq_false_iff] at h
        exact h.1
      cases hres : s.result with
      | ok tr oc =>
          simp only [runTrajAux, hres]
          rw [ih hrest]
          simp only [okOutcomes, okTraces, batchLog, updOptions, sampleEvents,
            List.filterMap_cons, hres, vecAdd_sum_cons]
          simp [List.append_assoc, SimResult.isStill, Dict.update]
      | stillInteracting =>
          simp only [runTrajAux, hres]
          rw [ih hrest]
          simp only [okOutcomes, okTraces, batchLog, updOptions, sampleEvents,
            List.filterMap_cons, hres]
          simp [List.append_assoc, SimResult.isStill, Dict.update]
      | interrupt =>
          rw [hres] at hs
          simp [SimResult.isInterrupt] at hs

/-- Characterization of a `run_trajectories` call that is not interrupted:
it returns normally; the aggregate is the elementwise sum of the normally
completed samples' outcomes, the trace list collects exactly their traces
in order, the shared options dict has had every sample's params merged
into it, and the collaborator log is the canonical batch log. -/
theorem run_trajectories_ok (st : BatchState) (samples : List Sample)
    (h : hasInterrupt samples = false) :
    run_trajectories st samples =
      .ok (vecSum (okOutcomes samples), okTraces samples,
           { options := updOptions st.options samples,
             log := st.log ++ batchLog 0 samples }) := by
  rw [run_trajectories, runTrajAux_ok samples h 0 st vecZero [], vecZero_add]
  simp

theorem okOutcomes_append (l₁ l₂ : List Sample) :
    okOutcomes (l₁ ++ l₂) = okOutcomes l₁ ++ okOutcomes l₂ := by
  simp [okOutcomes]

theorem okTraces_append (l₁ l₂ : List Sample) :
    okTraces (l₁ ++ l₂) = okTraces l₁ ++ okTraces l₂ := by
  simp [okTraces]

theorem batchLog_append (l₁ l₂ : List Sample) :
    ∀ i, batchLog i (l₁ ++ l₂) = batchLog i l₁ ++ batchLog (i + l₁.length) l₂ := by
  induction l₁ with
  | nil => intro i; simp [batchLog]
  | cons s rest ih =>
      intro i
      have h1 : i + 1 + rest.length = i + (s :: rest).length := by
        simp only [List.length_cons]
        omega
      calc batchLog i ((s :: rest) ++ l₂)
          = sampleEvents i s ++ batchLog (i + 1) (rest ++ l₂) := rfl
        _ = sampleEvents i s ++
              (batchLog (i + 1) rest ++ batchLog (i + 1 + rest.length) l₂) := by
            rw [ih (i + 1)]
        _ = (sampleEvents i s ++ batchLog (i + 1) rest) ++
              batchLog (i + (s :: rest).length) l₂ := by
            rw [h1, List.append_assoc]
        _ = batchLog i (s :: rest) ++ batchLog (i + (s :: rest).length) l₂ := rfl

theorem hasInterrupt_cons (s : Sample) (l : List Sample) :
    hasInterrupt (s :: l) = (s.result.isInterrupt || hasInterrupt l) := by
  simp [hasInterrupt]

theorem isStill_ok (tr : ℕ) (oc : OutcomeVec) :
    (SimResult.ok tr oc).isStill = false := rfl

theorem isStill_still : SimResult.stillInteracting.isStill = true := rfl

theorem okOutcomes_cons_ok (s : Sample) (rest : List Sample) (tr : ℕ)
    (oc : OutcomeVec) (h : s.result = SimResult.ok tr oc) :
    okOutcomes (s :: rest) = oc :: okOutcomes rest := by
  simp [okOutcomes, List.filterMap_cons, h]

theorem okOutcomes_cons_still (s : Sample) (rest : List Sample)
    (h : s.result = SimResult.stillInteracting) :
    okOutcomes (s :: rest) = okOutcomes rest := by
  simp [okOutcomes, List.filterMap_cons, h]

theorem stillCount_cons_ok (s : Sample) (rest : List Sample)
    (h : s.result.isStill = false) :
    stillCount (s :: rest) = stillCount rest := by
  simp [stillCount, List.countP_cons, h]

theorem stillCount_cons_still (s : Sample) (rest : List Sample)
    (h : s.result.isStill = true) :
    stillCount (s :: rest) = stillCount rest + 1 := by
  simp [stillCount, List.countP_cons, h]

theorem okOutcomes_length_add (l : List Sample) (h : hasInterrupt l = false) :
    (okOutcomes l).length + stillCount l = l.length := by
  induction l with
  | nil => rfl
  | cons s rest ih =>
      rw [hasInterrupt_cons, Bool.or_eq_false_iff] at h
      have ihr := ih h.2
      cases hres : s.result with
      | ok tr oc =>
          rw [okOutcomes_cons_ok s rest tr oc hres,
            stillCount_cons_ok s rest (by rw [hres]; rfl),
            List.length_cons, List.length_cons]
          omega
      | stillInteracting =>
          rw [okOutcomes_cons_still s rest hres,
            stillCount_cons_still s rest (by rw [hres]; rfl),
            List.length_cons]
          omega
      | interrupt =>
          rw [hres] at h
          simp [SimResult.isInterrupt] at h

theorem hasInterrupt_append (l₁ l₂ : List Sample) :
    hasInterrupt (l₁ ++ l₂) = (hasInterrupt l₁ || hasInterrupt l₂) := by
  simp [hasInterrupt]

/-- C2: if in `run_trajectories` a trajectory's `simulate()` raises
`StillInteracting` (and no interrupt occurs), the batch still returns
normally with all remaining samples processed, the failed trajectory's
outcome is absent from the aggregate and its trace absent from the trace
list (both equal what the surrounding samples alone produce), and a
warning event is on the diagnostic log. -/
theorem runTrajectories_still_interacting_skipped (st : BatchState)
    (pre post : List Sample) (s : Sample)
    (hs : s.result = SimResult.stillInteracting)
    (h : hasInterrupt (pre ++ post) = false) :
    ∃ fst : BatchState,
      run_trajectories st (pre ++ s :: post) =
        .ok (vecSum (okOutcomes (pre ++ post)), okTraces (pre ++ post), fst) ∧
      Event.warning ∈ fst.log := by
  have hsI : s.result.isInterrupt = false := by rw [hs]; rfl
  have hsS : s.result.isStill = true := by rw [hs]; rfl
  rw [hasInterrupt_append, Bool.or_eq_false_iff] at h
  have hall : hasInterrupt (pre ++ s :: post) = false := by
    rw [hasInterrupt_append, hasInterrupt_cons, hsI, h.1, h.2]
    rfl
  have hoc : okOutcomes (pre ++ s :: post) = okOutcomes (pre ++ post) := by
    rw [okOutcomes_append, okOutcomes_append]
    simp [okOutcomes, List.filterMap_cons, hs]
  have htr : okTraces (pre ++ s :: post) = okTraces (pre ++ post) := by
    rw [okTraces_append, okTraces_append]
    simp [okTraces, List.filterMap_cons, hs]
  refine ⟨{ options := updOptions st.options (pre ++ s :: post),
            log := st.log ++ batchLog 0 (pre ++ s :: post) }, ?_, ?_⟩
  · rw [run_trajectories_ok st (pre ++ s :: post) hall, hoc, htr]
  · simp [batchLog_append, batchLog, sampleEvents, hsS]

/-- A concrete normally completing work item with trace tag 1. -/
def wOk1 : Sample := ⟨0, 0, 0, [], SimResult.ok 1 (fun _ => 1)⟩

/-- A concrete normally completing work item with trace tag 2. -/
def wOk2 : Sample := ⟨0, 0, 0, [], SimResult.ok 2 (fun _ => 1)⟩

/-- A concrete work item whose trajectory raises `StillInteracting`. -/
def wStill : Sample := ⟨0, 0, 0, [], SimResult.stillInteracting⟩

/-- A concrete work item whose simulation is hit by `KeyboardInterrupt`. -/
def wInterrupted : Sample := ⟨0, 0, 0, [], SimResult.interrupt⟩

/-- Witness for C2: a concrete three-sample batch whose middle trajectory
raises `StillInteracting`. -/
theorem runTrajectories_still_interacting_skipped_witness :
    wStill.result = SimResult.stillInteracting ∧
    hasInterrupt [wOk1, wOk2] = false ∧
    ∃ fst : BatchState,
      run_trajectories (initState []) ([wOk1] ++ wStill :: [wOk2]) =
        .ok (vecSum (okOutcomes ([wOk1] ++ [wOk2])),
             okTraces ([wOk1] ++ [wOk2]), fst) ∧
      Event.warning ∈ fst.log :=
  ⟨rfl, rfl,
   runTrajectories_still_interacting_skipped (initState []) [wOk1] [wOk2]
     wStill rfl rfl⟩

theorem vecSum_perm {vs₁ vs₂ : List OutcomeVec} (h : vs₁.Perm vs₂) :
    vecSum vs₁ = vecSum vs₂ := by
  funext j
  exact List.Perm.sum_eq (h.map (fun v => v j))

/-- C3: in an uninterrupted batch the aggregate returned by
`run_trajectories` is exactly the elementwise sum of the outcome vectors
of the samples that completed normally — the `M − K` non-excluded ones,
where `K` of the `M` samples raised the expected partial failure — and
this aggregate is invariant under permutation of the accumulation order
(any permuted batch, even started from a different controller state,
yields the same aggregate). -/
theorem runTrajectories_aggregate_conservation (st st₂ : BatchState)
    (samples samples₂ : List Sample)
    (h : hasInterrupt samples = false) (hp : samples.Perm samples₂) :
    (∃ fst : BatchState,
      run_trajectories st samples =
        .ok (vecSum (okOutcomes samples), okTraces samples, fst)) ∧
    (okOutcomes samples).length = samples.length - stillCount samples ∧
    (∀ out trs fst out₂ trs₂ fst₂,
      run_trajectories st samples = .ok (out, trs, fst) →
      run_trajectories st₂ samples₂ = .ok (out₂, trs₂, fst₂) →
      out = out₂) := by
  have h₂ : hasInterrupt samples₂ = false := by
    rw [hasInterrupt, List.any_eq_false] at h ⊢
    intro x hx
    exact h x (hp.mem_iff.mpr hx)
  refine ⟨⟨_, run_trajectories_ok st samples h⟩, ?_, ?_⟩
  · have hadd := okOutcomes_length_add samples h
    omega
  · intro out trs fst out₂ trs₂ fst₂ h1 h2
    rw [run_trajectories_ok st samples h] at h1
    rw [run_trajectories_ok st₂ samples₂ h₂] at h2
    have e1 : out = vecSum (okOutcomes samples) := by
      cases h1
      rfl
    have e2 : out₂ = vecSum (okOutcomes samples₂) := by
      cases h2
      rfl
    rw [e1, e2]
    exact vecSum_perm (hp.filterMap _)

/-- Witness for C3: a concrete two-sample batch (one success, one
still-interacting) and its reversal. -/
theorem runTrajectories_aggregate_conservation_witness :
    hasInterrupt [wOk1, wStill] = false ∧
    [wOk1, wStill].Perm [wStill, wOk1] ∧
    (∃ fst : BatchState,
      run_trajectories (initState []) [wOk1, wStill] =
        .ok (vecSum (okOutcomes [wOk1, wStill]), okTraces [wOk1, wStill], fst)) ∧
    (okOutcomes [wOk1, wStill]).length = 2 - stillCount [wOk1, wStill] :=
  ⟨rfl, List.Perm.swap wStill wOk1 [],
   (runTrajectories_aggregate_conservation (initState []) (initState [])
      [wOk1, wStill] [wStill, wOk1] rfl (List.Perm.swap wStill wOk1 [])).1,
   (runTrajectories_aggregate_conservation (initState []) (initState [])
      [wOk1, wStill] [wStill, wOk1] rfl (List.Perm.swap wStill wOk1 [])).2.1⟩

theorem runTrajAux_interrupt (pre : List Sample) (hpre : hasInterrupt pre = false)
    (s : Sample) (hs : s.result = SimResult.interrupt) (post : List Sample) :
    ∀ (i : ℕ) (st : BatchState) (out : OutcomeVec) (trs : List ℕ),
      runTrajAux st out trs i (pre ++ s :: post) = .error .interrupt := by
  induction pre with
  | nil =>
      intro i st out trs
      simp only [List.nil_append, runTrajAux, hs]
  | cons p rest ih =>
      intro i st out trs
      have hrest : hasInterrupt rest = false := by
        simp only [hasInterrupt, List.any_cons, Bool.or_eq_false_iff] at hpre
        exact hpre.2
      have hpI : p.result.isInterrupt = false := by
        simp only [hasInterrupt, List.any_cons, Bool.or_eq_false_iff] at hpre
        exact hpre.1
      cases hres : p.result with
      | ok tr oc =>
          simp only [List.cons_append, runTrajAux, hres]
          exact ih hrest _ _ _ _
      | stillInteracting =>
          simp only [List.cons_append, runTrajAux, hres]
          exact ih hrest _ _ _ _
      | interrupt =>
          rw [hres] at hpI
          simp [SimResult.isInterrupt] at hpI

/-- C9: a `KeyboardInterrupt` arriving during any trajectory of the batch
is re-raised to the caller by `run_trajectories` and by
`unwrapped_run_trajectories`: both abort with the interrupt error and
return no normal result, however many trajectories already completed. -/
theorem runTrajectories_interrupt_propagates (st : BatchState)
    (pre post : List Sample) (s : Sample)
    (hpre : hasInterrupt pre = false) (hs : s.result = SimResult.interrupt) :
    run_trajectories st (pre ++ s :: post) = .error .interrupt ∧
    unwrapped_run_trajectories st (pre ++ s :: post) = .error .interrupt := by
  have h := runTrajAux_interrupt pre hpre s hs post 0 st vecZero []
  refine ⟨h, ?_⟩
  rw [unwrapped_run_trajectories, run_trajectories, h]

/-- Phase 1 of `BatchedTraj.compute`: for every yielded sample, merge its
params into `self.options` (the same aliasing write as in
`run_trajectories`: `traj_input = self.options` then
`traj_input.update(params)`), construct the trajectory — which calls
`self.tracemanager.spawn_tracer()` — and put it on `traj_queue`. -/
def computePhase1 : BatchState → List Sample → ℕ → List Sample →
    BatchState × List Sample
  | st, q, _, [] => (st, q)
  | st, q, i, s :: rest =>
      computePhase1
        { options := st.options.update s.params
          log := st.log ++ [Event.spawnTracer i] }
        (q ++ [s]) (i + 1) rest

/-- Phase 2 of `BatchedTraj.compute`: drain `traj_queue`, calling each
trajectory's `simulate()` and putting the result on `results_queue`.
There is no exception handler here: `StillInteracting` (and any
interrupt) propagates out of `compute`.  The error carries the
controller state at the moment the exception escapes, because in Python
the side effects already performed on `self` and on the trace manager
persist when the exception unwinds. -/
def computePhase2 : BatchState → List ℕ → ℕ → List Sample →
    Except (Exn × BatchState) (BatchState × List ℕ)
  | st, res, _, [] => .ok (st, res)
  | st, res, i, s :: rest =>
      let st' : BatchState := { st with log := st.log ++ [Event.simulateCall i] }
      match s.result with
      | .ok tr _ => computePhase2 st' (res ++ [tr]) (i + 1) rest
      | .stillInteracting => .error (.stillInteracting, st')
      | .interrupt => .error (.interrupt, st')

/-- Phase 3 of `BatchedTraj.compute`: drain `results_queue`, calling
`self.tracemanager.merge_tracer(r)` on each result. -/
def computePhase3 : BatchState → ℕ → List ℕ → BatchState
  | st, _, [] => st
  | st, i, _ :: rest =>
      computePhase3 { st with log := st.log ++ [Event.mergeTracer i] } (i + 1) rest

/-- Embedding of `BatchedTraj.compute()`: enqueue all work items
(`nsamples` is read from `self.options["samples"]`; the generator's yield
is the `samples` argument here), drain the trajectory queue through
`simulate()`, then drain the results queue through `merge_tracer`.
Returns the final controller state and the collected results. -/
def compute (st : BatchState) (samples : List Sample) :
    Except Exn (BatchState × List ℕ) :=
  let p1 := computePhase1 st [] 0 samples
  match computePhase2 p1.1 [] 0 p1.2 with
  | .error (e, _) => .error e
  | .ok (st2, results) => .ok (computePhase3 st2 0 results, results)

theorem computePhase1_spec (l : List Sample) :
    ∀ (st : BatchState) (q : List Sample) (i : ℕ),
      computePhase1 st q i l =
        ({ options := updOptions st.options l,
           log := st.log ++ (List.range' i l.length).map Event.spawnTracer },
         q ++ l) := by
  induction l with
  | nil =>
      intro st q i
      simp [computePhase1, updOptions, List.range']
  | cons s rest ih =>
      intro st q i
      rw [computePhase1, ih]
      simp only [updOptions, List.length_cons, List.range'_succ, List.map_cons]
      simp [Dict.update, List.append_assoc]

theorem computePhase2_spec (l : List Sample) :
    ∀ (st : BatchState) (res : List ℕ) (i : ℕ),
      l.all (fun s => s.result.isOk) = true →
      computePhase2 st res i l =
        .ok ({ st with log := st.log ++ (List.range' i l.length).map Event.simulateCall },
             res ++ okTraces l) := by
  induction l with
  | nil =>
      intro st res i _
      simp [computePhase2, okTraces, List.range']
  | cons s rest ih =>
      intro st res i h
      rw [List.all_cons, Bool.and_eq_true] at h
      cases hres : s.result with
      | ok tr oc =>
          rw [computePhase2]
          simp only [hres]
          rw [ih _ _ _ h.2]
          simp only [okTraces, List.filterMap_cons, hres, List.length_cons,
            List.range'_succ, List.map_cons]
          simp [List.append_assoc]
      | stillInteracting =>
          rw [hres] at h
          simp [SimResult.isOk] at h
      | interrupt =>
          rw [hres] at h
          simp [SimResult.isOk] at h

theorem computePhase2_still (pre : List Sample)
    (hpre : pre.all (fun s => s.result.isOk) = true) (s : Sample)
    (hs : s.result = SimResult.stillInteracting) (post : List Sample) :
    ∀ (st : BatchState) (res : List ℕ) (i : ℕ),
      computePhase2 st res i (pre ++ s :: post) =
        .error (.stillInteracting,
          { st with log := st.log ++
              (List.range' i (pre.length + 1)).map Event.simulateCall }) := by
  induction pre with
  | nil =>
      intro st res i
      rw [List.nil_append, computePhase2]
      simp only [hs]
      simp [List.range'_succ, List.range']
  | cons p rest ih =>
      intro st res i
      rw [List.all_cons, Bool.and_eq_true] at hpre
      cases hres : p.result with
      | ok tr oc =>
          rw [List.cons_append, computePhase2]
          simp only [hres]
          rw [ih hpre.2]
          simp only [List.length_cons]
          rw [show rest.length + 1 + 1 = (rest.length + 1) + 1 from rfl,
            List.range'_succ, List.map_cons]
          simp [List.append_assoc, List.range'_succ]
      | stillInteracting =>
          rw [hres] at hpre
          simp [SimResult.isOk] at hpre
      | interrupt =>
          rw [hres] at hpre
          simp [SimResult.isOk] at hpre

theorem computePhase3_spec (l : List ℕ) :
    ∀ (st : BatchState) (i : ℕ),
      computePhase3 st i l =
        { st with log := st.log ++ (List.range' i l.length).map Event.mergeTracer } := by
  induction l with
  | nil => intro st i; simp [computePhase3, List.range']
  | cons r rest ih =>
      intro st i
      rw [computePhase3, ih]
      simp only [List.length_cons, List.range'_succ, List.map_cons]
      simp [List.append_assoc]

theorem okTraces_length_all_ok (l : List Sample)
    (h : l.all (fun s => s.result.isOk) = true) :
    (okTraces l).length = l.length := by
  induction l with
  | nil => rfl
  | cons s rest ih =>
      rw [List.all_cons, Bool.and_eq_true] at h
      cases hres : s.result with
      | ok tr oc =>
          simp only [okTraces, List.filterMap_cons, hres, List.length_cons]
          exact congrArg (· + 1) (ih h.2)
      | stillInteracting => rw [hres] at h; simp [SimResult.isOk] at h
      | interrupt => rw [hres] at h; simp [SimResult.isOk] at h

/-- Characterization of `compute` on a batch whose trajectories all
complete normally: it returns the collected traces, the options dict has
every sample's params merged in, and the collaborator log is: one
`spawn_tracer` per sample (phase 1), one `simulate` per sample (phase 2),
one `merge_tracer` per result (phase 3). -/
theorem compute_ok (st : BatchState) (samples : List Sample)
    (h : samples.all (fun s => s.result.isOk) = true) :
    compute st samples =
      .ok ({ options := updOptions st.options samples,
             log := st.log ++
               (List.range' 0 samples.length).map Event.spawnTracer ++
               (List.range' 0 samples.length).map Event.simulateCall ++
               (List.range' 0 samples.length).map Event.mergeTracer },
           okTraces samples) := by
  rw [compute, computePhase1_spec]
  simp only [List.nil_append]
  rw [computePhase2_spec samples _ _ _ h]
  simp only []
  rw [computePhase3_spec]
  simp [okTraces_length_all_ok samples h, List.append_assoc]

theorem allOk_no_interrupt (l : List Sample)
    (h : l.all (fun s => s.result.isOk) = true) :
    hasInterrupt l = false := by
  rw [hasInterrupt, List.any_eq_false]
  intro s hs
  have := (List.all_eq_true.mp h) s hs
  cases hres : s.result with
  | ok tr oc => simp [SimResult.isInterrupt]
  | stillInteracting => rw [hres] at this; simp [SimResult.isOk] at this
  | interrupt => rw [hres] at this; simp [SimResult.isOk] at this

/-- C10: `compute()` has no handler for the expected partial failure — if
any trajectory's `simulate()` raises `StillInteracting` during `compute`,
the error propagates out and no aggregated result is produced, whereas
`run_trajectories` on the very same batch returns normally. -/
theorem compute_still_interacting_aborts (opts : Dict) (pre post : List Sample)
    (s : Sample) (hpre : pre.all (fun t => t.result.isOk) = true)
    (hs : s.result = SimResult.stillInteracting)
    (hpost : hasInterrupt post = false) :
    compute (initState opts) (pre ++ s :: post) = .error .stillInteracting ∧
    (∃ out trs fst,
      run_trajectories (initState opts) (pre ++ s :: post) = .ok (out, trs, fst)) := by
  constructor
  · rw [compute, computePhase1_spec]
    simp only [List.nil_append]
    rw [computePhase2_still pre hpre s hs post]
  · have hall : hasInterrupt (pre ++ s :: post) = false := by
      rw [hasInterrupt_append, hasInterrupt_cons, allOk_no_interrupt pre hpre,
        hpost]
      rw [hs]
      rfl
    exact ⟨_, _, _, run_trajectories_ok (initState opts) (pre ++ s :: post) hall⟩

/-- Witness for C10: one still-interacting trajectory between two normal
ones aborts `compute` but not `run_trajectories`. -/
theorem compute_still_interacting_aborts_witness :
    compute (initState []) ([wOk1] ++ wStill :: [wOk2]) = .error .stillInteracting ∧
    (∃ out trs fst,
      run_trajectories (initState []) ([wOk1] ++ wStill :: [wOk2]) =
        .ok (out, trs, fst)) :=
  compute_still_interacting_aborts [] [wOk1] [wOk2] wStill rfl rfl rfl

/-- The property that a `spawn_tracer` call for trajectory `i` occurs in
the log and the call of trajectory `i`'s `simulate()` occurs after it. -/
def spawnBeforeSim (l : List Event) (i : ℕ) : Prop :=
  ∃ l₁ l₂, l = l₁ ++ Event.spawnTracer i :: l₂ ∧ Event.simulateCall i ∈ l₂

theorem sampleEvents_count_spawn (i : ℕ) (s : Sample) (j : ℕ) :
    (sampleEvents i s).count (Event.spawnTracer j) = if i = j then 1 else 0 := by
  by_cases h : s.result.isStill = true
  · simp [sampleEvents, h, List.count_cons, List.count_nil]
  · rw [Bool.not_eq_true] at h
    simp [sampleEvents, h, List.count_cons, List.count_nil]

theorem batchLog_count_spawn (l : List Sample) :
    ∀ i j, (batchLog i l).count (Event.spawnTracer j) =
      if i ≤ j ∧ j < i + l.length then 1 else 0 := by
  induction l with
  | nil =>
      intro i j
      rw [batchLog, List.count_nil]
      rw [eq_comm]
      simp only [List.length_nil, ite_eq_right_iff]
      intro hc
      omega
  | cons s rest ih =>
      intro i j
      rw [batchLog, List.count_append, sampleEvents_count_spawn, ih (i + 1) j,
        List.length_cons]
      split_ifs <;> omega

theorem batchLog_countP_merge (l : List Sample) :
    ∀ i, (batchLog i l).countP Event.isMerge = 0 := by
  induction l with
  | nil => intro i; rfl
  | cons s rest ih =>
      intro i
      rw [batchLog, List.countP_append, ih (i + 1)]
      by_cases h : s.result.isStill = true
      · simp [sampleEvents, h, List.countP_cons, Event.isMerge]
      · rw [Bool.not_eq_true] at h
        simp [sampleEvents, h, List.countP_cons, Event.isMerge]

theorem batchLog_spawnBeforeSim (l : List Sample) :
    ∀ i j, j < l.length →
      ∃ l₁ l₂, batchLog i l = l₁ ++ Event.spawnTracer (i + j) :: l₂ ∧
        Event.simulateCall (i + j) ∈ l₂ := by
  induction l with
  | nil => intro i j hj; simp at hj
  | cons s rest ih =>
      intro i j hj
      cases j with
      | zero =>
          refine ⟨[], Event.simulateCall i ::
            ((if s.result.isStill then [Event.warning] else []) ++ batchLog (i + 1) rest),
            ?_, List.mem_cons_self _ _⟩
          simp [batchLog, sampleEvents]
      | succ j' =>
          rw [List.length_cons, Nat.succ_lt_succ_iff] at hj
          obtain ⟨l₁, l₂, heq, hmem⟩ := ih (i + 1) j' hj
          have hidx : i + 1 + j' = i + (j' + 1) := by omega
          rw [hidx] at heq hmem
          exact ⟨sampleEvents i s ++ l₁, l₂,
            by rw [batchLog, heq, List.append_assoc], hmem⟩

theorem count_spawn_map (n : ℕ) :
    ∀ a j, ((List.range' a n).map Event.spawnTracer).count (Event.spawnTracer j) =
      if a ≤ j ∧ j < a + n then 1 else 0 := by
  induction n with
  | zero =>
      intro a j
      rw [eq_comm]
      simp only [List.range', List.map_nil, List.count_nil, ite_eq_right_iff]
      intro hc
      omega
  | succ n ih =>
      intro a j
      rw [List.range'_succ, List.map_cons, List.count_cons, ih (a + 1) j]
      simp only [Event.spawnTracer.injEq, beq_iff_eq]
      split_ifs <;> omega

theorem count_merge_map (n : ℕ) :
    ∀ a j, ((List.range' a n).map Event.mergeTracer).count (Event.mergeTracer j) =
      if a ≤ j ∧ j < a + n then 1 else 0 := by
  induction n with
  | zero =>
      intro a j
      rw [eq_comm]
      simp only [List.range', List.map_nil, List.count_nil, ite_eq_right_iff]
      intro hc
      omega
  | succ n ih =>
      intro a j
      rw [List.range'_succ, List.map_cons, List.count_cons, ih (a + 1) j]
      simp only [Event.mergeTracer.injEq, beq_iff_eq]
      split_ifs <;> omega

theorem count_spawn_in_sim_map (n a j : ℕ) :
    ((List.range' a n).map Event.simulateCall).count (Event.spawnTracer j) = 0 := by
  rw [List.count_eq_zero]
  simp

theorem count_spawn_in_merge_map (n a j : ℕ) :
    ((List.range' a n).map Event.mergeTracer).count (Event.spawnTracer j) = 0 := by
  rw [List.count_eq_zero]
  simp

theorem count_merge_in_spawn_map (n a j : ℕ) :
    ((List.range' a n).map Event.spawnTracer).count (Event.mergeTracer j) = 0 := by
  rw [List.count_eq_zero]
  simp

theorem count_merge_in_sim_map (n a j : ℕ) :
    ((List.range' a n).map Event.simulateCall).count (Event.mergeTracer j) = 0 := by
  rw [List.count_eq_zero]
  simp

/-- C7 counterexample: a one-trajectory batch run through
`run_trajectories` completes one trajectory (its trace is collected) but
makes zero `merge_tracer` calls — `run_trajectories` accumulates traces
and outcomes directly and never merges into the trace manager, so
"merge_tracer is called exactly once per successfully completed
trajectory in every batch execution" is false. -/
theorem tracer_merge_once_claim_counterexample :
    ∃ out trs fst,
      run_trajectories (initState []) [wOk1] = .ok (out, trs, fst) ∧
      trs.length = 1 ∧
      fst.log.countP Event.isMerge = 0 ∧
      ¬ (fst.log.countP Event.isMerge = trs.length) := by
  refine ⟨_, _, _, run_trajectories_ok (initState []) [wOk1] rfl, rfl, rfl, ?_⟩
  decide

theorem isMerge_spawn (i : ℕ) : (Event.spawnTracer i).isMerge = false := rfl

theorem isMerge_sim (i : ℕ) : (Event.simulateCall i).isMerge = false := rfl

theorem countP_merge_spawn_map (n a : ℕ) :
    ((List.range' a n).map Event.spawnTracer).countP Event.isMerge = 0 := by
  rw [List.countP_eq_zero]
  intro e he
  rw [List.mem_map] at he
  obtain ⟨x, -, rfl⟩ := he
  rw [isMerge_spawn]
  exact Bool.false_ne_true

theorem countP_merge_sim_map (n a : ℕ) :
    ((List.range' a n).map Event.simulateCall).countP Event.isMerge = 0 := by
  rw [List.countP_eq_zero]
  intro e he
  rw [List.mem_map] at he
  obtain ⟨x, -, rfl⟩ := he
  rw [isMerge_sim]
  exact Bool.false_ne_true

/-- C7 as amended: in every batch execution, `spawn_tracer` is called
exactly once per constructed trajectory and before that trajectory's
`simulate()` runs — in `run_trajectories` as in `compute`, including
batches containing still-interacting trajectories.  `run_trajectories`
never calls `merge_tracer`.  `compute` calls `merge_tracer` exactly once
per completed trajectory when every trajectory of the batch completes
normally; when some trajectory raises `StillInteracting`, `compute`
aborts during its simulation-drain phase having made no `merge_tracer`
call at all — not even for the trajectories that had already
completed. -/
theorem tracer_call_discipline :
    (∀ (opts : Dict) (samples : List Sample), hasInterrupt samples = false →
      ∃ out trs fst,
        run_trajectories (initState opts) samples = .ok (out, trs, fst) ∧
        (∀ i, i < samples.length →
          fst.log.count (Event.spawnTracer i) = 1 ∧ spawnBeforeSim fst.log i) ∧
        fst.log.countP Event.isMerge = 0) ∧
    (∀ (opts : Dict) (samples : List Sample),
      samples.all (fun s => s.result.isOk) = true →
      ∃ fst results,
        compute (initState opts) samples = .ok (fst, results) ∧
        results.length = samples.length ∧
        (∀ i, i < samples.length →
          fst.log.count (Event.spawnTracer i) = 1 ∧
          fst.log.count (Event.mergeTracer i) = 1 ∧
          spawnBeforeSim fst.log i)) ∧
    (∀ (opts : Dict) (pre post : List Sample) (s : Sample),
      pre.all (fun t => t.result.isOk) = true →
      s.result = SimResult.stillInteracting →
      ∃ stAbort : BatchState,
        computePhase2 (computePhase1 (initState opts) [] 0 (pre ++ s :: post)).1
            [] 0 (computePhase1 (initState opts) [] 0 (pre ++ s :: post)).2 =
          .error (.stillInteracting, stAbort) ∧
        (∀ i, i < (pre ++ s :: post).length →
          stAbort.log.count (Event.spawnTracer i) = 1) ∧
        (∀ i, i < pre.length + 1 → spawnBeforeSim stAbort.log i) ∧
        stAbort.log.countP Event.isMerge = 0 ∧
        compute (initState opts) (pre ++ s :: post) = .error .stillInteracting) := by
  refine ⟨?_, ?_, ?_⟩
  · intro opts samples h
    refine ⟨_, _, _, run_trajectories_ok (initState opts) samples h, ?_, ?_⟩
    · intro i hi
      constructor
      · show (([] : List Event) ++ batchLog 0 samples).count (Event.spawnTracer i) = 1
        rw [List.nil_append, batchLog_count_spawn samples 0 i]
        simp only [Nat.zero_add]
        simp [hi]
      · show spawnBeforeSim (([] : List Event) ++ batchLog 0 samples) i
        rw [List.nil_append]
        obtain ⟨l₁, l₂, heq, hmem⟩ := batchLog_spawnBeforeSim samples 0 i hi
        rw [Nat.zero_add] at heq hmem
        exact ⟨l₁, l₂, heq, hmem⟩
    · show (([] : List Event) ++ batchLog 0 samples).countP Event.isMerge = 0
      rw [List.nil_append]
      exact batchLog_countP_merge samples 0
  · intro optsc samples h
    refine ⟨_, _, compute_ok (initState optsc) samples h,
      okTraces_length_all_ok samples h, ?_⟩
    intro i hi
    refine ⟨?_, ?_, ?_⟩
    · show (([] : List Event) ++
        (List.range' 0 samples.length).map Event.spawnTracer ++
        (List.range' 0 samples.length).map Event.simulateCall ++
        (List.range' 0 samples.length).map Event.mergeTracer).count
          (Event.spawnTracer i) = 1
      rw [List.count_append, List.count_append, List.count_append]
      rw [count_spawn_map samples.length 0 i, count_spawn_in_sim_map,
        count_spawn_in_merge_map, List.count_nil]
      simp only [Nat.zero_add]
      simp [hi]
    · show (([] : List Event) ++
        (List.range' 0 samples.length).map Event.spawnTracer ++
        (List.range' 0 samples.length).map Event.simulateCall ++
        (List.range' 0 samples.length).map Event.mergeTracer).count
          (Event.mergeTracer i) = 1
      rw [List.count_append, List.count_append, List.count_append]
      rw [count_merge_map samples.length 0 i, count_merge_in_spawn_map,
        count_merge_in_sim_map, List.count_nil]
      simp only [Nat.zero_add]
      simp [hi]
    · have hmem : Event.spawnTracer i ∈
          (List.range' 0 samples.length).map Event.spawnTracer := by
        rw [List.mem_map]
        exact ⟨i, by rw [List.mem_range'_1]; omega, rfl⟩
      obtain ⟨l₁, l₂, heq⟩ := List.append_of_mem hmem
      refine ⟨l₁, l₂ ++ (List.range' 0 samples.length).map Event.simulateCall ++
        (List.range' 0 samples.length).map Event.mergeTracer, ?_, ?_⟩
      · show ([] : List Event) ++
          (List.range' 0 samples.length).map Event.spawnTracer ++
          (List.range' 0 samples.length).map Event.simulateCall ++
          (List.range' 0 samples.length).map Event.mergeTracer =
            l₁ ++ Event.spawnTracer i ::
              (l₂ ++ (List.range' 0 samples.length).map Event.simulateCall ++
                (List.range' 0 samples.length).map Event.mergeTracer)
        rw [List.nil_append, heq]
        simp [List.append_assoc]
      · rw [List.mem_append, List.mem_append]
        refine Or.inl (Or.inr ?_)
        rw [List.mem_map]
        exact ⟨i, by rw [List.mem_range'_1]; omega, rfl⟩
  · intro opts pre post s hpre hs
    have habort := computePhase2_still pre hpre s hs post
    refine ⟨{ options := updOptions (initState opts).options (pre ++ s :: post)
              log := (List.range' 0 (pre ++ s :: post).length).map
                  Event.spawnTracer ++
                (List.range' 0 (pre.length + 1)).map Event.simulateCall }, ?_⟩
    refine ⟨?_, ?_, ?_, ?_, ?_⟩
    · rw [computePhase1_spec]
      simp only [List.nil_append]
      rw [habort]
      show Except.error (Exn.stillInteracting,
        ({ options := updOptions (initState opts).options (pre ++ s :: post)
           log := ((initState opts).log ++
               (List.range' 0 (pre ++ s :: post).length).map Event.spawnTracer) ++
             (List.range' 0 (pre.length + 1)).map Event.simulateCall } :
          BatchState)) = _
      rw [show (initState opts).log = ([] : List Event) from rfl, List.nil_append]
    · intro i hi
      show ((List.range' 0 (pre ++ s :: post).length).map Event.spawnTracer ++
        (List.range' 0 (pre.length + 1)).map Event.simulateCall).count
          (Event.spawnTracer i) = 1
      rw [List.count_append, count_spawn_map, count_spawn_in_sim_map]
      simp only [Nat.zero_add]
      simp only [List.length_append, List.length_cons] at hi
      simp [hi]
    · intro i hi
      have hmem : Event.spawnTracer i ∈
          (List.range' 0 (pre ++ s :: post).length).map Event.spawnTracer := by
        rw [List.mem_map]
        refine ⟨i, by rw [List.mem_range'_1, List.length_append, List.length_cons]; omega,
          rfl⟩
      obtain ⟨l₁, l₂, heq⟩ := List.append_of_mem hmem
      refine ⟨l₁, l₂ ++ (List.range' 0 (pre.length + 1)).map Event.simulateCall,
        ?_, ?_⟩
      · show (List.range' 0 (pre ++ s :: post).length).map Event.spawnTracer ++
          (List.range' 0 (pre.length + 1)).map Event.simulateCall =
            l₁ ++ Event.spawnTracer i ::
              (l₂ ++ (List.range' 0 (pre.length + 1)).map Event.simulateCall)
        rw [heq]
        simp [List.append_assoc]
      · rw [List.mem_append]
        refine Or.inr ?_
        rw [List.mem_map]
        exact ⟨i, by rw [List.mem_range'_1]; omega, rfl⟩
    · show ((List.range' 0 (pre ++ s :: post).length).map Event.spawnTracer ++
        (List.range' 0 (pre.length + 1)).map Event.simulateCall).countP
          Event.isMerge = 0
      rw [List.countP_append, countP_merge_spawn_map, countP_merge_sim_map]
    · rw [compute, computePhase1_spec]
      simp only [List.nil_append]
      rw [habort]

/-- Witness for C7's amended theorem: the run part at a batch containing
a still-interacting trajectory, the compute part at an all-completing
batch, and the abort part at a batch whose middle trajectory raises
`StillInteracting`. -/
theorem tracer_call_discipline_witness :
    hasInterrupt [wOk1, wStill] = false ∧
    (∃ out trs fst,
      run_trajectories (initState []) [wOk1, wStill] = .ok (out, trs, fst) ∧
      (∀ i, i < 2 →
        fst.log.count (Event.spawnTracer i) = 1 ∧ spawnBeforeSim fst.log i) ∧
      fst.log.countP Event.isMerge = 0) ∧
    [wOk1, wOk2].all (fun s => s.result.isOk) = true ∧
    (∃ fst results,
      compute (initState []) [wOk1, wOk2] = .ok (fst, results) ∧
      results.length = 2 ∧
      (∀ i, i < 2 →
        fst.log.count (Event.spawnTracer i) = 1 ∧
        fst.log.count (Event.mergeTracer i) = 1 ∧
        spawnBeforeSim fst.log i)) ∧
    (∃ stAbort : BatchState,
      computePhase2 (computePhase1 (initState []) [] 0 ([wOk1] ++ wStill :: [wOk2])).1
          [] 0 (computePhase1 (initState []) [] 0 ([wOk1] ++ wStill :: [wOk2])).2 =
        .error (.stillInteracting, stAbort) ∧
      (∀ i, i < 3 → stAbort.log.count (Event.spawnTracer i) = 1) ∧
      (∀ i, i < 2 → spawnBeforeSim stAbort.log i) ∧
      stAbort.log.countP Event.isMerge = 0 ∧
      compute (initState []) ([wOk1] ++ wStill :: [wOk2]) = .error .stillInteracting) :=
  ⟨rfl,
   tracer_call_discipline.1 [] [wOk1, wStill] rfl,
   rfl,
   tracer_call_discipline.2.1 [] [wOk1, wOk2] rfl,
   tracer_call_discipline.2.2 [] [wOk1] [wOk2] wStill rfl rfl⟩

/-- The five recognized-key assignments of `BatchedTraj.__init__`:
`self.options["initial_time"] = inp.get("initial_time", 0.0)` and so on
for `samples` (2000), `dt` (20.0), `nprocs` (1), `outcome_type`
("state").  No `seed` key is ever written. -/
def optsBase (inp : Dict) : Dict :=
  Dict.insert
    (Dict.insert
      (Dict.insert
        (Dict.insert
          (Dict.insert ([] : Dict)
            "initial_time" ((inp.lookup "initial_time").getD (OptVal.num 0)))
          "samples" ((inp.lookup "samples").getD (OptVal.num 2000)))
        "dt" ((inp.lookup "dt").getD (OptVal.num 20)))
      "nprocs" ((inp.lookup "nprocs").getD (OptVal.num 1)))
    "outcome_type" ((inp.lookup "outcome_type").getD (OptVal.str "state"))

/-- The passthrough loop of `BatchedTraj.__init__`:
`for x in inp: if x not in self.options: self.options[x] = inp[x]`. -/
def passthrough (opts : Dict) (inp : Dict) : Dict :=
  inp.foldl
    (fun o kv => if (Dict.lookup o kv.1).isSome then o else o.insert kv.1 kv.2)
    opts

/-- Embedding of the configuration part of `BatchedTraj.__init__(**inp)`:
the five recognized keys with their defaults, then every other caller key
copied over unmodified. -/
def BatchedTraj.mkOptions (inp : Dict) : Dict :=
  passthrough (optsBase inp) inp

theorem passthrough_nil (opts : Dict) : passthrough opts [] = opts := rfl

theorem passthrough_cons (opts : Dict) (k' : String) (v' : OptVal) (rest : Dict) :
    passthrough opts ((k', v') :: rest) =
      passthrough (if (Dict.lookup opts k').isSome then opts else opts.insert k' v')
        rest := rfl

theorem Dict.lookup_cons (k' : String) (v' : OptVal) (rest : Dict) (k : String) :
    Dict.lookup ((k', v') :: rest) k =
      if k' = k then some v' else Dict.lookup rest k := rfl

theorem passthrough_lookup_some (inp : Dict) :
    ∀ (opts : Dict) (k : String) (v : OptVal),
      opts.lookup k = some v → (passthrough opts inp).lookup k = some v := by
  induction inp with
  | nil => intro opts k v h; exact h
  | cons kv rest ih =>
      obtain ⟨k', v'⟩ := kv
      intro opts k v h
      rw [passthrough_cons]
      by_cases hk : (Dict.lookup opts k').isSome = true
      · rw [if_pos hk]
        exact ih opts k v h
      · rw [if_neg hk]
        refine ih _ k v ?_
        have hne : k' ≠ k := by
          intro he
          rw [he, h] at hk
          exact hk rfl
        rw [Dict.lookup_insert_ne opts k' k v' hne]
        exact h

theorem passthrough_lookup_none (inp : Dict) :
    ∀ (opts : Dict) (k : String),
      opts.lookup k = none → (passthrough opts inp).lookup k = inp.lookup k := by
  induction inp with
  | nil =>
      intro opts k h
      exact h
  | cons kv rest ih =>
      obtain ⟨k', v'⟩ := kv
      intro opts k h
      rw [passthrough_cons, Dict.lookup_cons]
      by_cases he : k' = k
      · have hk : (Dict.lookup opts k').isSome = false := by
          rw [he, h]
          rfl
        rw [if_neg (by rw [hk]; exact Bool.false_ne_true), if_pos he]
        have hins : (opts.insert k' v').lookup k = some v' := by
          rw [← he]
          exact Dict.lookup_insert_self opts k' v'
        exact passthrough_lookup_some rest _ k v' hins
      · rw [if_neg he]
        by_cases hk : (Dict.lookup opts k').isSome = true
        · rw [if_pos hk]
          exact ih opts k h
        · rw [if_neg hk]
          refine ih _ k ?_
          rw [Dict.lookup_insert_ne opts k' k v' he]
          exact h
theorem optsBase_lookup_initial_time (inp : Dict) :
    (optsBase inp).lookup "initial_time" =
      some ((inp.lookup "initial_time").getD (OptVal.num 0)) := by
  simp [optsBase, Dict.insert, Dict.lookup_cons]

theorem optsBase_lookup_samples (inp : Dict) :
    (optsBase inp).lookup "samples" =
      some ((inp.lookup "samples").getD (OptVal.num 2000)) := by
  simp [optsBase, Dict.insert, Dict.lookup_cons]

theorem optsBase_lookup_dt (inp : Dict) :
    (optsBase inp).lookup "dt" =
      some ((inp.lookup "dt").getD (OptVal.num 20)) := by
  simp [optsBase, Dict.insert, Dict.lookup_cons]

theorem optsBase_lookup_nprocs (inp : Dict) :
    (optsBase inp).lookup "nprocs" =
      some ((inp.lookup "nprocs").getD (OptVal.num 1)) := by
  simp [optsBase, Dict.insert, Dict.lookup_cons]

theorem optsBase_lookup_outcome_type (inp : Dict) :
    (optsBase inp).lookup "outcome_type" =
      some ((inp.lookup "outcome_type").getD (OptVal.str "state")) := by
  simp [optsBase, Dict.insert, Dict.lookup_cons]

theorem optsBase_lookup_other (inp : Dict) (k : String)
    (h1 : k ≠ "initial_time") (h2 : k ≠ "samples") (h3 : k ≠ "dt")
    (h4 : k ≠ "nprocs") (h5 : k ≠ "outcome_type") :
    (optsBase inp).lookup k = none := by
  simp only [optsBase, Dict.insert, Dict.lookup_cons]
  rw [if_neg (Ne.symm h5), if_neg (Ne.symm h4), if_neg (Ne.symm h3),
    if_neg (Ne.symm h2), if_neg (Ne.symm h1)]
  rfl

/-- C8: the configuration built by `BatchedTraj.__init__` answers the
documented default for each recognized key the caller did not supply
(`initial_time` 0.0, `samples` 2000, `dt` 20.0, `nprocs` 1,
`outcome_type` "state"), answers nothing for `seed` when it was not
supplied (no `seed` default is written), and answers every unrecognized
caller-supplied key with exactly the caller's value (verbatim
passthrough). -/
theorem batchedTraj_options_defaults_and_passthrough (inp : Dict) :
    (inp.lookup "initial_time" = none →
      (BatchedTraj.mkOptions inp).lookup "initial_time" = some (OptVal.num 0)) ∧
    (inp.lookup "samples" = none →
      (BatchedTraj.mkOptions inp).lookup "samples" = some (OptVal.num 2000)) ∧
    (inp.lookup "dt" = none →
      (BatchedTraj.mkOptions inp).lookup "dt" = some (OptVal.num 20)) ∧
    (inp.lookup "nprocs" = none →
      (BatchedTraj.mkOptions inp).lookup "nprocs" = some (OptVal.num 1)) ∧
    (inp.lookup "outcome_type" = none →
      (BatchedTraj.mkOptions inp).lookup "outcome_type" =
        some (OptVal.str "state")) ∧
    (inp.lookup "seed" = none →
      (BatchedTraj.mkOptions inp).lookup "seed" = none) ∧
    (∀ k, k ≠ "initial_time" → k ≠ "samples" → k ≠ "dt" → k ≠ "nprocs" →
      k ≠ "outcome_type" →
      (BatchedTraj.mkOptions inp).lookup k = inp.lookup k) := by
  have hother : ∀ k, k ≠ "initial_time" → k ≠ "samples" → k ≠ "dt" →
      k ≠ "nprocs" → k ≠ "outcome_type" →
      (BatchedTraj.mkOptions inp).lookup k = inp.lookup k := by
    intro k h1 h2 h3 h4 h5
    exact passthrough_lookup_none inp _ k
      (optsBase_lookup_other inp k h1 h2 h3 h4 h5)
  refine ⟨?_, ?_, ?_, ?_, ?_, ?_, hother⟩
  · intro h
    have hb := optsBase_lookup_initial_time inp
    rw [h] at hb
    exact passthrough_lookup_some inp _ _ _ hb
  · intro h
    have hb := optsBase_lookup_samples inp
    rw [h] at hb
    exact passthrough_lookup_some inp _ _ _ hb
  · intro h
    have hb := optsBase_lookup_dt inp
    rw [h] at hb
    exact passthrough_lookup_some inp _ _ _ hb
  · intro h
    have hb := optsBase_lookup_nprocs inp
    rw [h] at hb
    exact passthrough_lookup_some inp _ _ _ hb
  · intro h
    have hb := optsBase_lookup_outcome_type inp
    rw [h] at hb
    exact passthrough_lookup_some inp _ _ _ hb
  · intro h
    rw [hother "seed" (by decide) (by decide) (by decide) (by decide) (by decide)]
    exact h

/-- A concrete caller configuration: `initial_time` supplied, plus one
unrecognized key. -/
def wInp : Dict := [("initial_time", OptVal.num 5), ("custom", OptVal.str "x")]

/-- Witness for C8 at the concrete configuration `wInp`. -/
theorem batchedTraj_options_defaults_and_passthrough_witness :
    (BatchedTraj.mkOptions wInp).lookup "samples" = some (OptVal.num 2000) ∧
    (BatchedTraj.mkOptions wInp).lookup "seed" = none ∧
    (BatchedTraj.mkOptions wInp).lookup "custom" = some (OptVal.str "x") := by
  obtain ⟨-, h2, -, -, -, h6, h7⟩ :=
    batchedTraj_options_defaults_and_passthrough wInp
  refine ⟨h2 rfl, h6 rfl, ?_⟩
  rw [h7 "custom" (by decide) (by decide) (by decide) (by decide) (by decide)]
  rfl

/-- Witness for C9: an interrupt hitting the second of three trajectories
aborts the whole batch. -/
theorem runTrajectories_interrupt_propagates_witness :
    run_trajectories (initState []) ([wOk1] ++ wInterrupted :: [wOk2]) =
      .error .interrupt ∧
    unwrapped_run_trajectories (initState []) ([wOk1] ++ wInterrupted :: [wOk2]) =
      .error .interrupt :=
  runTrajectories_interrupt_propagates (initState []) [wOk1] [wOk2]
    wInterrupted rfl rfl

/-- A per-sample override dict as the generators yield it:
`{"seed_sequence": token i}`. -/
def seedParams (i : ℕ) : Dict := [("seed_sequence", OptVal.seedTok 42 [i] 0)]

/-- A normally completing work item carrying seed token `i`. -/
def seedSample (i : ℕ) : Sample := ⟨0, 0, 0, seedParams i, SimResult.ok i (fun _ => 1)⟩

/-- C1: the shared base configuration IS mutated by the per-trajectory
merge.  `traj_input = self.options` makes `traj_input` an alias of the
shared dict, so `traj_input.update(params)` writes each trajectory's
`seed_sequence` into `self.options` itself: starting from a default
configuration with no `seed_sequence` key, after running one trajectory
the shared base holds that trajectory's token, after a two-trajectory
batch it holds the second trajectory's token, and `compute` mutates the
base the same way — contradicting the claimed isolation of the shared
base between invocations. -/
theorem options_shared_base_mutated :
    (BatchedTraj.mkOptions []).lookup "seed_sequence" = none ∧
    (∃ out trs fst,
      run_trajectories (initState (BatchedTraj.mkOptions [])) [seedSample 1] =
        .ok (out, trs, fst) ∧
      fst.options.lookup "seed_sequence" = some (OptVal.seedTok 42 [1] 0)) ∧
    (∃ out trs fst,
      run_trajectories (initState (BatchedTraj.mkOptions []))
          [seedSample 1, seedSample 2] = .ok (out, trs, fst) ∧
      fst.options.lookup "seed_sequence" = some (OptVal.seedTok 42 [2] 0)) ∧
    (∃ fst results,
      compute (initState (BatchedTraj.mkOptions [])) [seedSample 1] =
        .ok (fst, results) ∧
      fst.options.lookup "seed_sequence" = some (OptVal.seedTok 42 [1] 0)) := by
  refine ⟨rfl, ⟨_, _, _, rfl, ?_⟩, ⟨_, _, _, rfl, ?_⟩, ⟨_, _, rfl, ?_⟩⟩ <;> rfl

end Mudslide
